import Mathlib

/-!
Verification of the glambda deployment library against its specification.

The Go sources are shallowly embedded: Go strings become `List Char`,
Go errors become the inductive `GoErr` (with `wrapped` modelling
`fmt.Errorf` with the `%w` verb), fallible functions return `Except GoErr`,
and remote clients are modelled by the results their calls would return
(indexed by attempt number where a function calls them in a loop).
Remote side effects are made observable as explicit `RemoteCall` traces.

Sources embedded here: `policy.go` (ParseResourcePolicy, ParseManagedPolicy,
ParseInlinePolicy and their helpers), `glambda.go` (action preparation and
execution, deploy options), the client/command helper file (WaitForConsistency,
CreateLambdaResourcePolicy, the role/policy command constructors), and the
earlier revision of the create action that retried CreateFunction in a loop.
-/

namespace Glambda

/-- GoErr models a Go `error` value.  `errorf` is an error built by
`fmt.Errorf` without the `%w` verb, `wrapped` one built with `%w` (so it
unwraps to its inner error), `invalidParameterValue` is the lambda service
type `types.InvalidParameterValueException` with its message,
`noSuchEntity` is `iam/types.NoSuchEntityException`, `resourceNotFound` is
`lambda/types.ResourceNotFoundException`, and `other` stands for any other
distinct error value. -/
inductive GoErr where
  | errorf (msg : List Char)
  | wrapped (msg : List Char) (inner : GoErr)
  | invalidParameterValue (msg : List Char)
  | noSuchEntity
  | resourceNotFound
  | other (tag : List Char)
deriving DecidableEq

/-- GoErr.wrapsErr e t holds when unwrapping e (as `errors.Unwrap` would,
through `fmt.Errorf %w` wrappers) eventually reaches t.  This is how the
spec phrase "wrapping the last underlying error" is read. -/
def GoErr.wrapsErr : GoErr → GoErr → Bool
  | .wrapped _ inner, t => inner == t || inner.wrapsErr t
  | _, _ => false

/-- GoErr.isNoSuchEntityDeep models `errors.As(err, &iTypes.NoSuchEntityException)`:
the unwrap chain contains a NoSuchEntityException. -/
def GoErr.isNoSuchEntityDeep : GoErr → Bool
  | .noSuchEntity => true
  | .wrapped _ inner => inner.isNoSuchEntityDeep
  | _ => false

/-- GoErr.isResourceNotFoundDeep models `errors.As(err, &types.ResourceNotFoundException)`. -/
def GoErr.isResourceNotFoundDeep : GoErr → Bool
  | .resourceNotFound => true
  | .wrapped _ inner => inner.isResourceNotFoundDeep
  | _ => false

/-- GoErr.isIPV tests whether the error value is (dynamically) a
`types.InvalidParameterValueException`. -/
def GoErr.isIPV : GoErr → Bool
  | .invalidParameterValue _ => true
  | _ => false

/-- GoErr.ipvMessage is the Message field of an InvalidParameterValueException
(meaningful only when `isIPV` holds; mirrors the type assertion
`err.(*types.InvalidParameterValueException)` in the source). -/
def GoErr.ipvMessage : GoErr → List Char
  | .invalidParameterValue m => m
  | _ => []

deriving instance DecidableEq for Except

/-- exceptIsErr is true when a Go call returned a non-nil error. -/
def exceptIsErr {α : Type} : Except GoErr α → Bool
  | .error _ => true
  | .ok _ => false

/-- goIsSpace models Go `unicode.IsSpace`: Latin-1 spaces plus the Unicode
White_Space code points. -/
def goIsSpace (c : Char) : Bool :=
  c = '\x09' || c = '\x0a' || c = '\x0b' || c = '\x0c' || c = '\x0d' || c = ' ' ||
  c = '\x85' || c = '\xa0' || c = '\u1680' ||
  ('\u2000' ≤ c && c ≤ '\u200a') || c = '\u2028' || c = '\u2029' ||
  c = '\u202f' || c = '\u205f' || c = '\u3000'

/-- removeWhitespace models `policy.go`: `strings.Map` dropping every rune
for which `unicode.IsSpace` holds. -/
def removeWhitespace (s : List Char) : List Char :=
  s.filter (fun c => !goIsSpace c)

/-- removeQuotes models `policy.go`: `strings.ReplaceAll` removing every
double quote and then every single quote. -/
def removeQuotes (s : List Char) : List Char :=
  s.filter (fun c => !(c = '"' || c = '\x27'))

/-- stripPre pat s returns the remainder of s after the literal pat when pat
is a prefix of s, and none otherwise. -/
def stripPre : List Char → List Char → Option (List Char)
  | [], s => some s
  | _ :: _, [] => none
  | p :: ps, c :: cs => if p = c then stripPre ps cs else none

/-- upToTerm a b s splits s at the first occurrence of the two-character
terminator a,b: it returns the content before that occurrence.  This is the
shortest match of a lazy `(.*?)` group followed by the literals a b. -/
def upToTerm (a b : Char) : List Char → Option (List Char)
  | [] => none
  | [_] => none
  | x :: y :: rest =>
    if x = a ∧ y = b then some []
    else (upToTerm a b (y :: rest)).map (x :: ·)

/-- GoPrincipalMatch is the submatch result of the principal regex: either
the raw text of the bracketed list following an "AWS" key (group 2) or the
quoted name following a "Service" key (group 4). -/
inductive GoPrincipalMatch where
  | aws (l : List Char)
  | service (n : List Char)
deriving DecidableEq

/-- principalPre is the literal head of the principal regex,
the text "Principal" in quotes, a colon and an opening brace. -/
def principalPre : List Char := "\"Principal\":\x7b".toList

/-- awsAltPre is the literal head of the first regex alternative:
a quoted "AWS" key, a colon and an opening bracket. -/
def awsAltPre : List Char := "\"AWS\":[".toList

/-- serviceAltPre is the literal head of the second regex alternative:
a quoted "Service" key, a colon and an opening double quote. -/
def serviceAltPre : List Char := "\"Service\":\"".toList

/-- principalAlt s matches the alternation of the principal regex against
the text following the opening brace, preferring the "AWS" alternative as a
leftmost-first engine does.  The lazy group of the AWS alternative runs up
to the first bracket-brace terminator, the lazy group of the Service
alternative up to the first quote-brace terminator.  The two alternatives
start with different literals, so at any single position at most one of
them can match. -/
def principalAlt (s : List Char) : Option GoPrincipalMatch :=
  match stripPre awsAltPre s with
  | some r =>
    match upToTerm ']' '\x7d' r with
    | some content => some (.aws content)
    | none => none
  | none =>
    match stripPre serviceAltPre s with
    | some r =>
      match upToTerm '"' '\x7d' r with
      | some content => some (.service content)
      | none => none
    | none => none

/-- findPrincipal models `principalRegex.FindStringSubmatch`: scan positions
left to right and return the submatches of the first position at which the
whole pattern matches. -/
def findPrincipal : List Char → Option GoPrincipalMatch
  | [] => none
  | c :: rest =>
    match stripPre principalPre (c :: rest) with
    | some r =>
      match principalAlt r with
      | some pm => some pm
      | none => findPrincipal rest
    | none => findPrincipal rest

/-- condAt s matches the tail of a condition regex against the text
following its literal head: one or more non-quote characters, then a double
quote and a closing brace.  The greedy character class cannot cross a quote,
so the content is exactly the text up to the next quote, and the match
succeeds only when that quote is immediately followed by a closing brace. -/
def condAt (s : List Char) : Option (List Char) :=
  let content := s.takeWhile (fun c => c ≠ '"')
  match s.drop content.length with
  | '"' :: '\x7d' :: _ => if content = [] then none else some content
  | _ => none

/-- scanCond pre s models `FindStringSubmatch` for the three condition
regexes, each of which is a literal head pre followed by a quoted value and
a closing brace: scan positions left to right, return the first captured
value. -/
def scanCond (pre : List Char) : List Char → Option (List Char)
  | [] => none
  | c :: rest =>
    match stripPre pre (c :: rest) with
    | some r =>
      match condAt r with
      | some v => some v
      | none => scanCond pre rest
    | none => scanCond pre rest

/-- arnCondPre is the literal head of arnConditionRegex: an "ArnLike" key,
an opening brace, and a quoted "AWS:SourceArn" key up to its opening value
quote. -/
def arnCondPre : List Char := "\"ArnLike\":\x7b\"AWS:SourceArn\":\"".toList

/-- acctCondPre is the literal head of accountConditionRegex. -/
def acctCondPre : List Char := "\"StringEquals\":\x7b\"AWS:SourceAccount\":\"".toList

/-- orgCondPre is the literal head of orgIdConditionRegex. -/
def orgCondPre : List Char := "\"StringEquals\":\x7b\"aws:PrincipalOrgID\":\"".toList

/-- ResourcePolicy mirrors the struct in `glambda.go`: the formatted
principal string and the three optional condition values. -/
structure ResourcePolicy where
  Principal : List Char := []
  SourceAccountCondition : Option (List Char) := none
  SourceArnCondition : Option (List Char) := none
  PrincipalOrgIdCondition : Option (List Char) := none
deriving DecidableEq

/-- missingPrincipalMsg is the message of the error returned by
ParseResourcePolicy when the principal regex finds no match. -/
def missingPrincipalMsg : List Char := "principal not found in resource policy".toList

/-- principalString renders the Principal field exactly as
ParseResourcePolicy does: the Sprintf of the AWS list (when submatch 2 is
non-empty) or of the Service name (when submatch 4 is non-empty); when the
regex matched but both groups are empty the field keeps its zero value. -/
def principalString : GoPrincipalMatch → List Char
  | .aws l => if l = [] then [] else "\x7bAWS:[".toList ++ l ++ "]\x7d".toList
  | .service n => if n = [] then [] else "\x7bService:".toList ++ n ++ "\x7d".toList

/-- ParseResourcePolicy embeds the function of the same name in `policy.go`:
strip whitespace, require a principal match, then extract the three
condition clauses independently. -/
def ParseResourcePolicy (policy : List Char) : Except GoErr ResourcePolicy :=
  let p := removeWhitespace policy
  match findPrincipal p with
  | none => .error (.errorf missingPrincipalMsg)
  | some pm =>
    .ok { Principal := principalString pm
          SourceArnCondition := scanCond arnCondPre p
          SourceAccountCondition := scanCond acctCondPre p
          PrincipalOrgIdCondition := scanCond orgCondPre p }

/-- arnPolicyNamespace is the fixed prefix ParseManagedPolicy puts in front
of bare policy names. -/
def arnPolicyNamespace : List Char := "arn:aws:iam::aws:policy/".toList

/-- arnPre is the literal prefix `strings.HasPrefix` tests for. -/
def arnPre : List Char := "arn:".toList

/-- expandOne expands a single comma-separated entry as the loop body of
ParseManagedPolicy does: entries already starting with "arn:" pass through,
bare names are namespaced. -/
def expandOne (p : List Char) : List Char :=
  if arnPre.isPrefixOf p then p else arnPolicyNamespace ++ p

/-- ParseManagedPolicy embeds the function of the same name in `policy.go`:
empty input is an empty list; otherwise strip whitespace and quotes, split
on commas, and expand every entry. -/
def ParseManagedPolicy (policy : List Char) : List (List Char) :=
  if policy = [] then []
  else ((removeQuotes (removeWhitespace policy)).splitOn ',').map expandOne

/-- goJoinComma models `strings.Join(ls, ",")`, the canonical way to feed
an expanded managed-policy list back into the comma-separated input format
that WithManagedPolicies accepts. -/
def goJoinComma (ls : List (List Char)) : List Char :=
  [','].intercalate ls

/-- isMPClean holds of the characters that survive the cleaning steps of
ParseManagedPolicy and cannot act as an entry separator: not whitespace,
not a double or single quote, and not a comma. -/
def isMPClean (c : Char) : Bool :=
  !goIsSpace c && !(c = '"') && !(c = '\x27') && !(c = ',')

/-- jsonMarshalGoString models `json.Marshal` applied to a value of Go type
`string`: it encodes the string as a JSON string literal and never returns
an error (encoding/json replaces invalid UTF-8 rather than failing, and a
string is always a marshalable value).  The escaping of the payload is
irrelevant here because ParseInlinePolicy discards the encoded bytes. -/
def jsonMarshalGoString (s : List Char) : Except GoErr (List Char) :=
  .ok ('"' :: (s ++ ['"']))

/-- ParseInlinePolicy embeds the function of the same name in `policy.go`:
empty input is an error; otherwise the policy string itself is passed to
`json.Marshal` (not a JSON validity check of its contents), whose error
would be wrapped; on success the whitespace-stripped policy is returned. -/
def ParseInlinePolicy (policy : List Char) : Except GoErr (List Char) :=
  if policy = [] then .error (.errorf "inlinePolicy is empty".toList)
  else
    match jsonMarshalGoString policy with
    | .error e => .error (.wrapped "parsing failure for inlinePolicy".toList e)
    | .ok _ => .ok (removeWhitespace policy)

/-- ExecutionRole mirrors the struct of the same name in `glambda.go`. -/
structure ExecutionRole where
  RoleName : List Char := []
  RoleARN : List Char := []
  AssumeRolePolicyDocument : List Char := []
  ManagedPolicies : List (List Char) := []
  InLinePolicy : List Char := []
deriving DecidableEq

/-- AWSConfig stands in for `aws.Config`; only its identity matters to the
properties proved here. -/
structure AWSConfig where
  id : Nat := 0
deriving DecidableEq

/-- Lambda mirrors the struct of the same name in `glambda.go`. -/
structure Lambda where
  Name : List Char := []
  HandlerPath : List Char := []
  ExecutionRole : ExecutionRole := {}
  AWSAccountID : List Char := []
  ResourcePolicy : ResourcePolicy := {}
  cfg : AWSConfig := {}
deriving DecidableEq

/-- CreateFunctionInput mirrors the fields of `lambda.CreateFunctionInput`
that `CreateLambdaCommand` populates. -/
structure CreateFunctionInput where
  FunctionName : List Char
  Role : List Char
  Handler : List Char
  Runtime : List Char
  Architectures : List (List Char)
  ZipFile : List Nat
deriving DecidableEq

/-- UpdateFunctionCodeInput mirrors the fields of
`lambda.UpdateFunctionCodeInput` that `UpdateLambdaCommand` populates. -/
structure UpdateFunctionCodeInput where
  FunctionName : List Char
  ZipFile : List Nat
  Publish : Bool
deriving DecidableEq

/-- AddPermissionInput mirrors the fields of `lambda.AddPermissionInput`
that `CreateLambdaResourcePolicy` populates. -/
structure AddPermissionInput where
  Action : List Char
  FunctionName : List Char
  StatementId : List Char
  Principal : List Char
  SourceAccount : Option (List Char)
  SourceArn : Option (List Char)
  PrincipalOrgID : Option (List Char)
deriving DecidableEq

/-- CreateRoleInput mirrors the fields of `iam.CreateRoleInput` populated by
`CreateRoleCommand`. -/
structure CreateRoleInput where
  RoleName : List Char
  AssumeRolePolicyDocument : List Char
deriving DecidableEq

/-- AttachRolePolicyInput mirrors the fields of `iam.AttachRolePolicyInput`
populated by `AttachManagedPolicyCommand`. -/
structure AttachRolePolicyInput where
  RoleName : List Char
  PolicyArn : List Char
deriving DecidableEq

/-- PutRolePolicyInput mirrors the fields of `iam.PutRolePolicyInput`
populated by `PutRolePolicyCommand`. -/
structure PutRolePolicyInput where
  RoleName : List Char
  PolicyName : List Char
  PolicyDocument : List Char
deriving DecidableEq

/-- CreateLambdaCommand embeds the function of the same name in
`glambda.go`. -/
def CreateLambdaCommand (name roleARN : List Char) (pkg : List Nat) :
    CreateFunctionInput :=
  { FunctionName := name
    Role := roleARN
    Handler := "/var/task/bootstrap".toList
    Runtime := "provided.al2023".toList
    Architectures := ["arm64".toList]
    ZipFile := pkg }

/-- UpdateLambdaCommand embeds the function of the same name in
`glambda.go`; note that Publish is set, so the code update publishes a new
version in the same call. -/
def UpdateLambdaCommand (name : List Char) (pkg : List Nat) :
    UpdateFunctionCodeInput :=
  { FunctionName := name
    ZipFile := pkg
    Publish := true }

/-- Lambda.CreateLambdaResourcePolicy embeds the method of the same name:
no command at all when the policy has an empty principal, otherwise an
AddPermission command whose statement id carries the generated short
uuid. -/
def Lambda.CreateLambdaResourcePolicy (l : Lambda) (uuid : List Char) :
    Option AddPermissionInput :=
  if l.ResourcePolicy.Principal = [] then none
  else some
    { Action := "lambda:InvokeFunction".toList
      FunctionName := l.Name
      StatementId := "glambda_invoke_permission_".toList ++ uuid
      Principal := l.ResourcePolicy.Principal
      SourceAccount := l.ResourcePolicy.SourceAccountCondition
      SourceArn := l.ResourcePolicy.SourceArnCondition
      PrincipalOrgID := l.ResourcePolicy.PrincipalOrgIdCondition }

/-- CreateRoleCommand embeds the function of the same name. -/
def CreateRoleCommand (roleName assumePolicyDocument : List Char) :
    CreateRoleInput :=
  { RoleName := roleName, AssumeRolePolicyDocument := assumePolicyDocument }

/-- AttachManagedPolicyCommand embeds the function of the same name. -/
def AttachManagedPolicyCommand (roleName policyARN : List Char) :
    AttachRolePolicyInput :=
  { RoleName := roleName, PolicyArn := policyARN }

/-- PutRolePolicyCommand embeds the function of the same name: no command
when the role has no inline policy, otherwise a single PutRolePolicy
command with a generated name. -/
def PutRolePolicyCommand (role : ExecutionRole) (uuid : List Char) :
    List PutRolePolicyInput :=
  if role.InLinePolicy = [] then []
  else
    [{ RoleName := role.RoleName
       PolicyName := "glambda_inline_policy_".toList ++ uuid
       PolicyDocument := role.InLinePolicy }]

/-- basicExecutionRoleArn is the baseline managed policy PrepareRoleAction
always attaches. -/
def basicExecutionRoleArn : List Char :=
  "arn:aws:iam::aws:policy/service-role/AWSLambdaBasicExecutionRole".toList

/-- RoleCreateOrUpdate mirrors the action struct of the same name in
`glambda.go` (the client handle is not part of the model). -/
structure RoleCreateOrUpdate where
  CreateRole : Option CreateRoleInput
  ManagedPolicies : List AttachRolePolicyInput
  InlinePolicies : List PutRolePolicyInput
deriving DecidableEq

/-- PrepareRoleAction embeds the function of the same name in `glambda.go`.
The live GetRole call is modelled by its result grRes; the generated uuid
of the inline-policy name is passed in.  The Go code first populates the
action with the baseline attachment, then inspects the GetRole error
(staging CreateRole only for a NoSuchEntityException and failing fast on
anything else), then appends one attachment per user-supplied managed
policy and the inline-policy commands. -/
def PrepareRoleAction (role : ExecutionRole) (grRes : Except GoErr Unit)
    (uuid : List Char) : Except GoErr RoleCreateOrUpdate :=
  let createRole? : Except GoErr (Option CreateRoleInput) :=
    match grRes with
    | .ok _ => .ok none
    | .error e =>
      if e.isNoSuchEntityDeep then
        .ok (some (CreateRoleCommand role.RoleName role.AssumeRolePolicyDocument))
      else .error e
  match createRole? with
  | .error e => .error e
  | .ok cr =>
    .ok { CreateRole := cr
          ManagedPolicies :=
            { RoleName := role.RoleName, PolicyArn := basicExecutionRoleArn } ::
              role.ManagedPolicies.map (AttachManagedPolicyCommand role.RoleName)
          InlinePolicies := PutRolePolicyCommand role uuid }

/-- RemoteCall records one remote AWS call issued while executing an
action, so that frame properties (which calls were and were not made) are
provable. -/
inductive RemoteCall where
  | createFunction (c : CreateFunctionInput)
  | updateFunctionCode (u : UpdateFunctionCodeInput)
  | addPermission (p : AddPermissionInput)
deriving DecidableEq

/-- RemoteCall.isAddPermission tests for an AddPermission call. -/
def RemoteCall.isAddPermission : RemoteCall → Bool
  | .addPermission _ => true
  | _ => false

/-- LambdaCreateActionDo embeds `LambdaCreateAction.Do` of `glambda.go`:
CreateFunction first (its result is cfRes), failing fast on error;
then, only when a resource-policy command was built, AddPermission (result
apRes).  The returned trace lists the remote calls actually issued. -/
def LambdaCreateActionDo (cfRes apRes : Except GoErr Unit)
    (cmd : CreateFunctionInput) (perm : Option AddPermissionInput) :
    Except GoErr Unit × List RemoteCall :=
  match cfRes with
  | .error e => (.error e, [.createFunction cmd])
  | .ok _ =>
    match perm with
    | none => (.ok (), [.createFunction cmd])
    | some p =>
      match apRes with
      | .error e => (.error e, [.createFunction cmd, .addPermission p])
      | .ok _ => (.ok (), [.createFunction cmd, .addPermission p])

/-- LambdaUpdateActionDo embeds `LambdaUpdateAction.Do` of `glambda.go`:
the body only calls UpdateFunctionCode (result ufcRes) and returns its
error.  The ResourcePolicyCommand field perm that
`NewLambdaUpdateAction` populated is carried by the action but never
executed by Do; it is a parameter here to make that observable. -/
def LambdaUpdateActionDo (ufcRes : Except GoErr Unit)
    (cmd : UpdateFunctionCodeInput) (_perm : Option AddPermissionInput) :
    Except GoErr Unit × List RemoteCall :=
  (ufcRes, [.updateFunctionCode cmd])

/-- lambdaExists embeds the function of the same name: a GetFunction
success means the function exists, a ResourceNotFoundException means it
does not, and any other error is returned. -/
def lambdaExists (gfRes : Except GoErr Unit) : Except GoErr Bool :=
  match gfRes with
  | .ok _ => .ok true
  | .error e => if e.isResourceNotFoundDeep then .ok false else .error e

/-- PreparedLambdaAction is the closed sum of the two lambda actions
`PrepareLambdaAction` can return, each carrying the commands its
constructor (`NewLambdaCreateAction` / `NewLambdaUpdateAction`) builds. -/
inductive PreparedLambdaAction where
  | createAction (c : CreateFunctionInput) (perm : Option AddPermissionInput)
  | updateAction (u : UpdateFunctionCodeInput) (perm : Option AddPermissionInput)
deriving DecidableEq

/-- PrepareLambdaAction embeds the function of the same name in
`glambda.go`: package first (result pkgRes), then the existence check
(GetFunction result gfRes), then branch into the update or create
action. -/
def PrepareLambdaAction (l : Lambda) (pkgRes : Except GoErr (List Nat))
    (gfRes : Except GoErr Unit) (uuid : List Char) :
    Except GoErr PreparedLambdaAction :=
  match pkgRes with
  | .error e => .error e
  | .ok pkg =>
    match lambdaExists gfRes with
    | .error e => .error e
    | .ok true =>
      .ok (.updateAction (UpdateLambdaCommand l.Name pkg)
            (l.CreateLambdaResourcePolicy uuid))
    | .ok false =>
      .ok (.createAction (CreateLambdaCommand l.Name l.ExecutionRole.RoleARN pkg)
            (l.CreateLambdaResourcePolicy uuid))

/-- WithInlinePolicy embeds the deploy option of the same name in
`glambda.go`: the empty string is accepted without touching the Lambda;
otherwise ParseInlinePolicy must succeed and its result replaces the
execution role inline policy. -/
def WithInlinePolicy (policy : List Char) (l : Lambda) : Except GoErr Lambda :=
  if policy = [] then .ok l
  else
    match ParseInlinePolicy policy with
    | .error e => .error e
    | .ok pol =>
      .ok { l with ExecutionRole := { l.ExecutionRole with InLinePolicy := pol } }

/-- WithResourcePolicy embeds the deploy option of the same name in
`glambda.go`: the empty string is accepted without touching the Lambda;
otherwise ParseResourcePolicy must succeed and its result replaces the
resource policy. -/
def WithResourcePolicy (policy : List Char) (l : Lambda) : Except GoErr Lambda :=
  if policy = [] then .ok l
  else
    match ParseResourcePolicy policy with
    | .error e => .error e
    | .ok rp => .ok { l with ResourcePolicy := rp }

/-- consistencyTimeoutMsg is the message of the error WaitForConsistency
returns when the retry budget is exhausted (the Errorf of the source with
retryLimit = 10 interpolated); it is built by `fmt.Errorf` without the
`%w` verb, so it wraps nothing. -/
def consistencyTimeoutMsg : List Char :=
  "waited for lambda become consistent, but didn\x27t after 10 retries".toList

/-- versionNilMsg is the message of the error WaitForConsistency returns
when PublishVersion succeeds but reports no version. -/
def versionNilMsg : List Char := "version is nil".toList

/-- waitFrom is the loop of WaitForConsistency: pv i is the result of the
i-th PublishVersion call (an optional version string, since the response
version pointer may be nil), and fuel is the number of further iterations
the loop may run after the current one (the Go loop breaks when the loop
index reaches retryLimit, so the entry fuel is retryLimit and the loop body
runs retryLimit + 1 times at most). -/
def waitFrom (pv : Nat → Except GoErr (Option (List Char))) :
    Nat → Nat → Except GoErr (List Char)
  | i, fuel =>
    match pv i with
    | .ok (some v) => .ok v
    | .ok none => .error (.errorf versionNilMsg)
    | .error _ =>
      match fuel with
      | 0 => .error (.errorf consistencyTimeoutMsg)
      | f + 1 => waitFrom pv (i + 1) f

/-- WaitForConsistency embeds the function of the same name from the
client helper file (retryLimit = 10). -/
def WaitForConsistency (pv : Nat → Except GoErr (Option (List Char))) :
    Except GoErr (List Char) :=
  waitFrom pv 0 10

/-- roleAssumeMsgPart is the message fragment the retrying create action
looks for inside an InvalidParameterValueException. -/
def roleAssumeMsgPart : List Char :=
  "role defined for the function cannot be assumed by Lambda".toList

/-- containsSub needle hay models `strings.Contains(hay, needle)`: needle
occurs as a contiguous substring of hay. -/
def containsSub (needle : List Char) : List Char → Bool
  | [] => needle.isEmpty
  | c :: t => needle.isPrefixOf (c :: t) || containsSub needle t

/-- errorsIsSdkIPV models the test
`errors.Is(err, &types.InvalidParameterValueException{})` of the retrying
create action exactly as Go executes it: `errors.Is` walks the unwrap
chain of err comparing each error with `==` against the freshly allocated
target pointer and consulting an `Is(error) bool` method when one exists;
the SDK-generated exception type defines no `Is` method and the target is
a new allocation no error can be pointer-equal to, so the test is false
for every error and the branch it guards is dead code. -/
def errorsIsSdkIPV (_e : GoErr) : Bool := false

/-- createRetryGo is the loop of the earlier revision of
`LambdaCreateAction.Do` (`for i := 0; i < 3; i++`).  cf i is the result of
the i-th CreateFunction call; rem is the number of loop iterations left;
calls and sleeps count the CreateFunction calls and the
DefaultRetryWaitingPeriod sleeps performed so far; last is the value of the
err variable (initially nil).  Success returns at once; a failure enters
the `errors.Is` branch — which would return a non-role-message
InvalidParameterValueException at once and sleep before retrying a
role-message one — but that test never matches (see errorsIsSdkIPV), so in
fact every error falls through it and the loop retries without sleeping;
after the third iteration the last error is returned. -/
def createRetryGo (cf : Nat → Except GoErr Unit) :
    Nat → Nat → Nat → Except GoErr Unit → Except GoErr Unit × Nat × Nat
  | 0, calls, sleeps, last => (last, calls, sleeps)
  | rem + 1, calls, sleeps, _ =>
    match cf calls with
    | .ok _ => (.ok (), calls + 1, sleeps)
    | .error e =>
      if errorsIsSdkIPV e then
        if containsSub roleAssumeMsgPart e.ipvMessage then
          createRetryGo cf rem (calls + 1) (sleeps + 1) (.error e)
        else (.error e, calls + 1, sleeps)
      else createRetryGo cf rem (calls + 1) sleeps (.error e)

/-- LambdaCreateActionRetryDo embeds the earlier `LambdaCreateAction.Do`
(and the structurally identical `CreateAction.Do` of its sibling
revision): at most 3 CreateFunction attempts.  The result carries the
final error value together with the number of CreateFunction calls made
and the number of inter-attempt sleeps taken. -/
def LambdaCreateActionRetryDo (cf : Nat → Except GoErr Unit) :
    Except GoErr Unit × Nat × Nat :=
  createRetryGo cf 3 0 0 (.ok ())

/-! Concrete example inputs used by witnesses and counterexamples. -/

/-- pvAllFail is a PublishVersion behaviour that fails on every attempt
with the same underlying error. -/
def pvAllFail : Nat → Except GoErr (Option (List Char)) :=
  fun _ => .error (.other "boom".toList)

/-- pvEventually is a PublishVersion behaviour that fails twice and then
returns version 3. -/
def pvEventually : Nat → Except GoErr (Option (List Char)) :=
  fun i => if i < 2 then .error (.other "x".toList) else .ok (some "3".toList)

/-- roleAssumeErr is the InvalidParameterValueException the lambda service
returns while a freshly created role is still propagating. -/
def roleAssumeErr : GoErr :=
  .invalidParameterValue ("The ".toList ++ roleAssumeMsgPart ++ ".".toList)

/-- cfRoleAlways is a CreateFunction behaviour that fails on every attempt
with the role-assumption propagation error. -/
def cfRoleAlways : Nat → Except GoErr Unit := fun _ => .error roleAssumeErr

/-- cfRoleTwice is a CreateFunction behaviour that fails with the
role-assumption error on the first two attempts and then succeeds. -/
def cfRoleTwice : Nat → Except GoErr Unit :=
  fun i => if i < 2 then .error roleAssumeErr else .ok ()

/-- cfOtherIPV is a CreateFunction behaviour that fails with an
InvalidParameterValueException whose message is not the role-assumption
one. -/
def cfOtherIPV : Nat → Except GoErr Unit :=
  fun _ => .error (.invalidParameterValue "some other message".toList)

/-- cfOtherOnce is a CreateFunction behaviour that fails once with an
error that is not an InvalidParameterValueException and then succeeds. -/
def cfOtherOnce : Nat → Except GoErr Unit :=
  fun i => if i = 0 then .error (.other "conflict".toList) else .ok ()

/-- uuidX is a fixed stand-in for the generated short uuid, as the test
suite of the repository uses. -/
def uuidX : List Char := "DEADBEEF".toList

/-- lambdaExisting is a Lambda whose resource policy has a non-empty
principal, used against an already existing remote function. -/
def lambdaExisting : Lambda :=
  { Name := "test".toList
    HandlerPath := "testdata/correct_test_handler/main.go".toList
    ExecutionRole :=
      { RoleName := "glambda_exec_role_test".toList
        RoleARN := "arn:aws:iam::123456789012:role/glambda_exec_role_test".toList }
    AWSAccountID := "123456789012".toList
    ResourcePolicy := { Principal := "123456789012".toList } }

/-- lambdaNoPrincipal is a Lambda whose resource policy is empty, as built
by a deployment with no resource-permission input. -/
def lambdaNoPrincipal : Lambda :=
  { Name := "test".toList
    HandlerPath := "testdata/correct_test_handler/main.go".toList
    ExecutionRole :=
      { RoleName := "glambda_exec_role_test".toList
        RoleARN := "arn:aws:iam::123456789012:role/glambda_exec_role_test".toList }
    AWSAccountID := "123456789012".toList }

/-- pkgX is a stand-in deployment package (zip bytes). -/
def pkgX : List Nat := [80, 75, 3, 4]

/-- docAwsDup is a resource-policy document with an "AWS" principal list
containing a duplicated account identifier, pretty-printed with
whitespace. -/
def docAwsDup : List Char :=
  "\x7b \"Principal\": \x7b \"AWS\": [ \"111122223333\", \"444455556666\", \"111122223333\" ] \x7d \x7d".toList

/-- docAwsEmptyList is a resource-policy document whose "AWS" principal
list is empty. -/
def docAwsEmptyList : List Char :=
  "\x7b\"Principal\":\x7b\"AWS\":[]\x7d\x7d".toList

/-- inlineInvalidJson is the not-JSON inline policy from the repository's
own test TestWithInlinePolicy_CanDetectInvalidPolicyCases (an unclosed
string literal). -/
def inlineInvalidJson : List Char := "\x7b\"invalid\": \"json\x7d".toList

/-- scenarioDInput is the managed-policy input of end-to-end scenario D:
commas, embedded spaces, mixed bare and fully-qualified entries. -/
def scenarioDInput : List Char :=
  "S3FullAccess, arn:aws:iam::aws:policy/AmazonDynamoDBFullAccess".toList

/-- condDocHead is the start of the condition test document, up to and
including the opening brace of the Condition object: a Service principal
and an Action, pretty-printed. -/
def condDocHead : List Char :=
  ("\x7b\n  \"Version\": \"2012-10-17\",\n  \"Statement\": [\n    \x7b\n" ++
   "      \"Effect\": \"Allow\",\n      \"Principal\": \x7b\n" ++
   "        \"Service\": \"s3.amazonaws.com\"\n      \x7d,\n" ++
   "      \"Action\": \"lambda:InvokeFunction\",\n      \"Condition\": \x7b").toList

/-- arnClause is the source-ARN condition clause of the condition test
document. -/
def arnClause : List Char :=
  ("\n        \"ArnLike\": \x7b\n          \"AWS:SourceArn\": " ++
   "\"arn:aws:s3:::DOC-EXAMPLE-BUCKET\"\n        \x7d,").toList

/-- acctClause is the source-account condition clause of the condition
test document. -/
def acctClause : List Char :=
  ("\n        \"StringEquals\": \x7b\n          \"AWS:SourceAccount\": " ++
   "\"123456789012\"\n        \x7d,").toList

/-- orgClause is the principal-org-id condition clause of the condition
test document. -/
def orgClause : List Char :=
  ("\n        \"StringEquals\": \x7b\n          \"aws:PrincipalOrgID\": " ++
   "\"o-a1b2c3d4e5f\"\n        \x7d,").toList

/-- condDocTail closes the Condition object, the statement, the statement
list and the document. -/
def condDocTail : List Char := "\n      \x7d\n    \x7d\n  ]\n\x7d".toList

/-- condDoc builds the condition test document containing exactly the
subset of the three condition clauses selected by the three flags. -/
def condDoc (b1 b2 b3 : Bool) : List Char :=
  condDocHead ++ (if b1 then arnClause else []) ++
    (if b2 then acctClause else []) ++ (if b3 then orgClause else []) ++
    condDocTail

/-- exRoleX is a concrete execution role with one user-supplied managed
policy and an inline policy. -/
def exRoleX : ExecutionRole :=
  { RoleName := "glambda_exec_role_test".toList
    RoleARN := "arn:aws:iam::123456789012:role/glambda_exec_role_test".toList
    AssumeRolePolicyDocument := "\x7b\"Version\":\"2012-10-17\"\x7d".toList
    ManagedPolicies := ["arn:aws:iam::aws:policy/AmazonS3ReadOnlyAccess".toList]
    InLinePolicy := "\x7b\"Effect\":\"Allow\"\x7d".toList }

/-! Helper lemmas. -/

/-- exceptIsErr holds exactly of error results. -/
theorem exceptIsErr_iff {α : Type} (r : Except GoErr α) :
    exceptIsErr r = true ↔ ∃ e, r = .error e := by
  cases r <;> simp [exceptIsErr]

/-- waitFrom returns the timeout error when every attempt it may make
fails. -/
theorem waitFrom_timeout (pv : Nat → Except GoErr (Option (List Char))) :
    ∀ fuel i, (∀ j, j ≤ fuel → exceptIsErr (pv (i + j)) = true) →
      waitFrom pv i fuel = .error (.errorf consistencyTimeoutMsg) := by
  intro fuel
  induction fuel with
  | zero =>
    intro i h
    have h0 := h 0 (Nat.le_refl 0)
    rw [Nat.add_zero] at h0
    obtain ⟨e, he⟩ := (exceptIsErr_iff _).mp h0
    simp [waitFrom, he]
  | succ f ih =>
    intro i h
    have h0 := h 0 (Nat.zero_le _)
    rw [Nat.add_zero] at h0
    obtain ⟨e, he⟩ := (exceptIsErr_iff _).mp h0
    have hrec := ih (i + 1) (fun j hj => by
      have hh := h (j + 1) (Nat.succ_le_succ hj)
      rwa [show i + (j + 1) = i + 1 + j by omega] at hh)
    simp [waitFrom, he, hrec]

/-- waitFrom returns the version of the first successful attempt when the
attempts before it fail and the loop has fuel enough to reach it. -/
theorem waitFrom_ok (pv : Nat → Except GoErr (Option (List Char)))
    (v : List Char) :
    ∀ N i fuel, N ≤ fuel → (∀ j, j < N → exceptIsErr (pv (i + j)) = true) →
      pv (i + N) = .ok (some v) → waitFrom pv i fuel = .ok v := by
  intro N
  induction N with
  | zero =>
    intro i fuel _ _ hok
    rw [Nat.add_zero] at hok
    cases fuel <;> simp [waitFrom, hok]
  | succ n ih =>
    intro i fuel hfuel hfail hok
    have h0 := hfail 0 (Nat.succ_pos n)
    rw [Nat.add_zero] at h0
    obtain ⟨e, he⟩ := (exceptIsErr_iff _).mp h0
    cases fuel with
    | zero => exact absurd hfuel (Nat.not_succ_le_zero n)
    | succ f =>
      have hrec := ih (i + 1) f (Nat.le_of_succ_le_succ hfuel)
        (fun j hj => by
          have hh := hfail (j + 1) (Nat.succ_lt_succ hj)
          rwa [show i + (j + 1) = i + 1 + j by omega] at hh)
        (by rwa [show i + 1 + n = i + (n + 1) by omega])
      simp [waitFrom, he, hrec]

/-! Claim theorems. -/

/-- C1 (amended): for every PublishVersion behaviour, if the calls fail
exactly N times and then succeed with N strictly below the retry budget of
10, WaitForConsistency returns the version token of the successful call;
if every attempt made within the budget fails (the loop makes its initial
call plus 10 retries), it returns the consistency-timeout error — which is
a fresh Errorf error naming the retry count and wrapping no underlying
error. -/
theorem c1_wait_consistency (pv : Nat → Except GoErr (Option (List Char)))
    (v : List Char) (N : Nat) :
    (N < 10 → (∀ i, i < N → exceptIsErr (pv i) = true) →
        pv N = .ok (some v) → WaitForConsistency pv = .ok v) ∧
    ((∀ i, i ≤ 10 → exceptIsErr (pv i) = true) →
        WaitForConsistency pv = .error (.errorf consistencyTimeoutMsg) ∧
          (∀ e, (GoErr.errorf consistencyTimeoutMsg).wrapsErr e = false)) := by
  constructor
  · intro hN hfail hok
    exact waitFrom_ok pv v N 0 10 (Nat.le_of_lt hN)
      (fun j hj => by simpa using hfail j hj) (by simpa using hok)
  · intro hfail
    refine ⟨waitFrom_timeout pv 10 0 (fun j hj => by simpa using hfail j hj), ?_⟩
    intro e
    simp [GoErr.wrapsErr]

/-- C1 witness: concrete instances of both branches of the theorem — a
behaviour failing twice then publishing version 3 yields that token, and a
behaviour failing on all eleven attempts yields the timeout error. -/
theorem c1_wait_consistency_witness :
    WaitForConsistency pvEventually = .ok "3".toList ∧
      WaitForConsistency pvAllFail = .error (.errorf consistencyTimeoutMsg) := by
  constructor
  · exact (c1_wait_consistency pvEventually "3".toList 2).1 (by decide)
      (by decide) (by decide)
  · exact ((c1_wait_consistency pvAllFail [] 0).2 (by decide)).1

/-- C1 counterexample: the original claim says exhausting the budget
returns an error wrapping the last underlying error from PublishVersion;
with a behaviour that always fails with the same underlying error, the
returned timeout error wraps nothing at all. -/
theorem c1_wait_consistency_cex :
    WaitForConsistency pvAllFail = .error (.errorf consistencyTimeoutMsg) ∧
      (GoErr.errorf consistencyTimeoutMsg).wrapsErr (.other "boom".toList) = false := by
  constructor <;> decide

/-- createRetryGo never sleeps: the sole sleep sits inside the dead
errors.Is branch, so the sleep count of the result is the sleep count it
started with. -/
theorem createRetryGo_sleeps (cf : Nat → Except GoErr Unit) :
    ∀ rem calls sleeps last,
      (createRetryGo cf rem calls sleeps last).2.2 = sleeps := by
  intro rem
  induction rem with
  | zero => intro calls sleeps last; rfl
  | succ r ih =>
    intro calls sleeps last
    simp only [createRetryGo]
    cases h : cf calls with
    | ok _ => rfl
    | error e => simp [errorsIsSdkIPV, ih]

/-- C2 (amended): in the retrying revisions of the create action the
`errors.Is` test against a freshly allocated InvalidParameterValueException
never matches, so the branch it guards — the immediate return of an
other-message invalid-parameter error and the inter-attempt sleep before
retrying the role-assumption error — is dead code.  Every CreateFunction
failure, the role-assumption invalid-parameter error included, is
therefore retried up to the fixed bound of 3 attempts with no
inter-attempt delay; the action returns success as soon as an attempt
succeeds and otherwise returns the last error after the third attempt; no
error is ever returned before the bound is exhausted.  The second
component of the result counts CreateFunction calls, the third the
inter-attempt sleeps. -/
theorem c2_create_retry (cf : Nat → Except GoErr Unit) (e : Nat → GoErr) :
    ((∀ i, i < 3 → cf i = .error (e i)) →
        LambdaCreateActionRetryDo cf = (.error (e 2), 3, 0)) ∧
    (∀ e0, cf 0 = .error e0 → cf 1 = .ok () →
        LambdaCreateActionRetryDo cf = (.ok (), 2, 0)) ∧
    (∀ e0 e1, cf 0 = .error e0 → cf 1 = .error e1 → cf 2 = .ok () →
        LambdaCreateActionRetryDo cf = (.ok (), 3, 0)) ∧
    (LambdaCreateActionRetryDo cf).2.2 = 0 := by
  refine ⟨?_, ?_, ?_, createRetryGo_sleeps cf 3 0 0 (.ok ())⟩
  · intro hfail
    have h0 := hfail 0 (by omega)
    have h1 := hfail 1 (by omega)
    have h2 := hfail 2 (by omega)
    simp [LambdaCreateActionRetryDo, createRetryGo, h0, h1, h2, errorsIsSdkIPV]
  · intro e0 h0 h1
    simp [LambdaCreateActionRetryDo, createRetryGo, h0, h1, errorsIsSdkIPV]
  · intro e0 e1 h0 h1 h2
    simp [LambdaCreateActionRetryDo, createRetryGo, h0, h1, h2, errorsIsSdkIPV]

/-- C2 witness: the theorem's branches at concrete CreateFunction
behaviours — the role-assumption error retried to the bound with zero
sleeps, an other-message invalid-parameter error likewise retried to the
bound rather than returned at once, a non-invalid-parameter failure
followed by a successful retry, and a role failure recovered on the third
attempt. -/
theorem c2_create_retry_witness :
    LambdaCreateActionRetryDo cfRoleAlways = (.error roleAssumeErr, 3, 0) ∧
      LambdaCreateActionRetryDo cfOtherIPV =
        (.error (.invalidParameterValue "some other message".toList), 3, 0) ∧
      LambdaCreateActionRetryDo cfOtherOnce = (.ok (), 2, 0) ∧
      LambdaCreateActionRetryDo cfRoleTwice = (.ok (), 3, 0) := by
  refine ⟨?_, ?_, ?_, ?_⟩
  · exact (c2_create_retry cfRoleAlways (fun _ => roleAssumeErr)).1 (by decide)
  · exact (c2_create_retry cfOtherIPV
      (fun _ => .invalidParameterValue "some other message".toList)).1 (by decide)
  · exact (c2_create_retry cfOtherOnce (fun _ => .other [])).2.1
      (.other "conflict".toList) (by decide) (by decide)
  · exact (c2_create_retry cfRoleTwice (fun _ => .other [])).2.2.1
      roleAssumeErr roleAssumeErr (by decide) (by decide) (by decide)

/-- C2 counterexample: the original claim says the role-assumption
invalid-parameter error is retried with the fixed inter-attempt delay and
that any other error is returned immediately without a further
CreateFunction attempt.  Under the behaviour that always fails with the
role-assumption error the action retries to the bound but sleeps zero
times; under a behaviour whose first call fails with another error and
whose second call succeeds, the action calls CreateFunction twice and
returns success instead of that error; and an other-message
invalid-parameter failure is returned only after three attempts, not
one. -/
theorem c2_create_retry_cex :
    LambdaCreateActionRetryDo cfRoleAlways = (.error roleAssumeErr, 3, 0) ∧
      (LambdaCreateActionRetryDo cfRoleAlways).2.2 = 0 ∧
      LambdaCreateActionRetryDo cfOtherOnce = (.ok (), 2, 0) ∧
      (LambdaCreateActionRetryDo cfOtherOnce).1 ≠
        .error (.other "conflict".toList) ∧
      (LambdaCreateActionRetryDo cfOtherOnce).2.1 ≠ 1 ∧
      (LambdaCreateActionRetryDo cfOtherIPV).2.1 = 3 := by
  refine ⟨by decide, by decide, by decide, by decide, by decide, by decide⟩

/-- C3 (amended): for every Lambda whose function already exists remotely
(GetFunction succeeds) and whose package builds, function provisioning
yields an update action; the update command replaces the function code and
publishes a new version in the same call, and the action carries the
resource-permission grant command, which is present whenever the resource
policy has a non-empty principal — but executing the action only issues
the UpdateFunctionCode call and never issues AddPermission. -/
theorem c3_update_action (l : Lambda) (pkg : List Nat) (uuid : List Char)
    (ufcRes : Except GoErr Unit) :
    PrepareLambdaAction l (.ok pkg) (.ok ()) uuid =
        .ok (.updateAction (UpdateLambdaCommand l.Name pkg)
          (l.CreateLambdaResourcePolicy uuid)) ∧
      (UpdateLambdaCommand l.Name pkg).Publish = true ∧
      (l.ResourcePolicy.Principal ≠ [] →
        (l.CreateLambdaResourcePolicy uuid).isSome = true) ∧
      (∀ perm, LambdaUpdateActionDo ufcRes (UpdateLambdaCommand l.Name pkg) perm =
          (ufcRes, [.updateFunctionCode (UpdateLambdaCommand l.Name pkg)])) := by
  refine ⟨?_, rfl, ?_, fun perm => rfl⟩
  · simp [PrepareLambdaAction, lambdaExists]
  · intro h
    simp [Lambda.CreateLambdaResourcePolicy, h]

/-- C3 witness: the theorem applied to a concrete existing Lambda with a
non-empty principal, a concrete package and uuid, and a successful
UpdateFunctionCode call. -/
theorem c3_update_action_witness :
    PrepareLambdaAction lambdaExisting (.ok pkgX) (.ok ()) uuidX =
        .ok (.updateAction (UpdateLambdaCommand lambdaExisting.Name pkgX)
          (lambdaExisting.CreateLambdaResourcePolicy uuidX)) ∧
      (lambdaExisting.CreateLambdaResourcePolicy uuidX).isSome = true ∧
      LambdaUpdateActionDo (.ok ()) (UpdateLambdaCommand lambdaExisting.Name pkgX)
          (lambdaExisting.CreateLambdaResourcePolicy uuidX) =
        (.ok (), [.updateFunctionCode (UpdateLambdaCommand lambdaExisting.Name pkgX)]) := by
  refine ⟨(c3_update_action lambdaExisting pkgX uuidX (.ok ())).1,
    (c3_update_action lambdaExisting pkgX uuidX (.ok ())).2.2.1 (by decide),
    (c3_update_action lambdaExisting pkgX uuidX (.ok ())).2.2.2
      (lambdaExisting.CreateLambdaResourcePolicy uuidX)⟩

/-- C3 counterexample: the original claim says executing the update action
re-applies the resource-permission grant via AddPermission whenever the
principal is non-empty; for a concrete existing Lambda with a non-empty
principal, the trace of executing the prepared update action contains an
UpdateFunctionCode call and no AddPermission call at all. -/
theorem c3_update_action_cex :
    lambdaExisting.ResourcePolicy.Principal ≠ [] ∧
      PrepareLambdaAction lambdaExisting (.ok pkgX) (.ok ()) uuidX =
        .ok (.updateAction (UpdateLambdaCommand lambdaExisting.Name pkgX)
          (lambdaExisting.CreateLambdaResourcePolicy uuidX)) ∧
      (LambdaUpdateActionDo (.ok ()) (UpdateLambdaCommand lambdaExisting.Name pkgX)
          (lambdaExisting.CreateLambdaResourcePolicy uuidX)).2.all
        (fun c => !c.isAddPermission) = true := by
  refine ⟨by decide, by decide, by decide⟩

/-- C4 (amended): for every policy-document string, ParseResourcePolicy
returns a ResourcePolicy whose Principal is the brace-wrapped "AWS" list
when (after whitespace removal) the principal regex captures an AWS list
with non-empty contents (list contents preserved verbatim, order kept, no
deduplication), the brace-wrapped "Service" name when it captures a
non-empty Service name, and fails with the missing-principal error exactly
when the principal pattern does not match; when the pattern matches with
empty contents the Principal field is left empty with no error. -/
theorem c4_parse_resource_policy (p l n : List Char) :
    (findPrincipal (removeWhitespace p) = some (.aws l) → l ≠ [] →
      (ParseResourcePolicy p).map (·.Principal) =
        .ok ("\x7bAWS:[".toList ++ l ++ "]\x7d".toList)) ∧
    (findPrincipal (removeWhitespace p) = some (.service n) → n ≠ [] →
      (ParseResourcePolicy p).map (·.Principal) =
        .ok ("\x7bService:".toList ++ n ++ "\x7d".toList)) ∧
    (ParseResourcePolicy p = .error (.errorf missingPrincipalMsg) ↔
      findPrincipal (removeWhitespace p) = none) := by
  refine ⟨?_, ?_, ?_⟩
  · intro h hl
    simp [ParseResourcePolicy, h, principalString, hl, Except.map]
  · intro h hn
    simp [ParseResourcePolicy, h, principalString, hn, Except.map]
  · cases hfp : findPrincipal (removeWhitespace p) <;>
      simp [ParseResourcePolicy, hfp]

/-- C4 witness: the AWS branch on a document whose list carries a
duplicated account (kept verbatim, no deduplication), and the Service
branch on the condition test document. -/
theorem c4_parse_resource_policy_witness :
    (ParseResourcePolicy docAwsDup).map (·.Principal) =
        .ok "\x7bAWS:[\"111122223333\",\"444455556666\",\"111122223333\"]\x7d".toList ∧
      (ParseResourcePolicy (condDoc false false false)).map (·.Principal) =
        .ok "\x7bService:s3.amazonaws.com\x7d".toList := by
  constructor
  · exact (c4_parse_resource_policy docAwsDup
      "\"111122223333\",\"444455556666\",\"111122223333\"".toList []).1
      (by decide) (by decide)
  · exact (c4_parse_resource_policy (condDoc false false false) []
      "s3.amazonaws.com".toList).2.1 (by decide) (by decide)

/-- C4 counterexample: a document containing an "AWS" principal list with
empty contents: the regex matches, no error is returned, but the Principal
field is the empty string rather than the brace-wrapped empty list the
claim requires. -/
theorem c4_parse_resource_policy_cex :
    findPrincipal (removeWhitespace docAwsEmptyList) =
        some (.aws []) ∧
      (ParseResourcePolicy docAwsEmptyList).map (·.Principal) = .ok [] ∧
      ("\x7bAWS:[]\x7d".toList : List Char) ≠ ([] : List Char) := by
  refine ⟨by decide, by decide, by decide⟩

/-- C5: the claim is right and the code is wrong.  ParseInlinePolicy is
supposed to reject a non-empty document that is not parseable JSON (the
repository's own test expects an error for this input), but the source
passes the policy string itself to json.Marshal — which never fails for a
string value — so the not-JSON input is accepted and returned
whitespace-stripped; only the empty string is rejected. -/
theorem c5_parse_inline_policy :
    ParseInlinePolicy inlineInvalidJson =
        .ok "\x7b\"invalid\":\"json\x7d".toList ∧
      exceptIsErr (ParseInlinePolicy inlineInvalidJson) = false ∧
      ParseInlinePolicy [] = .error (.errorf "inlinePolicy is empty".toList) := by
  refine ⟨by decide, by decide, by decide⟩

/-- C6: for every Lambda whose resource policy has an empty principal,
CreateLambdaResourcePolicy builds no grant command, and executing the
create action issues only the CreateFunction call and still succeeds
whenever CreateFunction succeeds — AddPermission is never called. -/
theorem c6_empty_principal_no_grant (l : Lambda) (uuid : List Char)
    (cfRes apRes : Except GoErr Unit) (cmd : CreateFunctionInput) :
    l.ResourcePolicy.Principal = [] →
      l.CreateLambdaResourcePolicy uuid = none ∧
        (cfRes = .ok () →
          LambdaCreateActionDo cfRes apRes cmd (l.CreateLambdaResourcePolicy uuid) =
            (.ok (), [.createFunction cmd])) := by
  intro h
  have hnone : l.CreateLambdaResourcePolicy uuid = none := by
    simp [Lambda.CreateLambdaResourcePolicy, h]
  refine ⟨hnone, ?_⟩
  intro hcf
  simp [LambdaCreateActionDo, hcf, hnone]

/-- C6 witness: the theorem applied to the concrete empty-principal Lambda
named "test" of end-to-end scenario A. -/
theorem c6_empty_principal_no_grant_witness :
    lambdaNoPrincipal.CreateLambdaResourcePolicy uuidX = none ∧
      LambdaCreateActionDo (.ok ()) (.ok ())
          (CreateLambdaCommand lambdaNoPrincipal.Name
            lambdaNoPrincipal.ExecutionRole.RoleARN pkgX)
          (lambdaNoPrincipal.CreateLambdaResourcePolicy uuidX) =
        (.ok (), [.createFunction (CreateLambdaCommand lambdaNoPrincipal.Name
          lambdaNoPrincipal.ExecutionRole.RoleARN pkgX)]) := by
  have h := c6_empty_principal_no_grant lambdaNoPrincipal uuidX (.ok ()) (.ok ())
    (CreateLambdaCommand lambdaNoPrincipal.Name
      lambdaNoPrincipal.ExecutionRole.RoleARN pkgX) (by decide)
  exact ⟨h.1, h.2 rfl⟩

/-- C7: for every ExecutionRole, PrepareRoleAction stages a create-role
sub-action exactly when GetRole fails with a NoSuchEntityException; on any
other GetRole error it returns that error and no action; and every
successful case stages the baseline AWSLambdaBasicExecutionRole attachment
first, followed by one attachment per user-supplied managed policy (plus
the inline-policy commands). -/
theorem c7_prepare_role_action (role : ExecutionRole)
    (grRes : Except GoErr Unit) (uuid : List Char) (e : GoErr) :
    (grRes = .error e → e.isNoSuchEntityDeep = true →
      PrepareRoleAction role grRes uuid = .ok
        { CreateRole := some (CreateRoleCommand role.RoleName
            role.AssumeRolePolicyDocument)
          ManagedPolicies :=
            { RoleName := role.RoleName, PolicyArn := basicExecutionRoleArn } ::
              role.ManagedPolicies.map (AttachManagedPolicyCommand role.RoleName)
          InlinePolicies := PutRolePolicyCommand role uuid }) ∧
    (grRes = .error e → e.isNoSuchEntityDeep = false →
      PrepareRoleAction role grRes uuid = .error e) ∧
    (grRes = .ok () →
      PrepareRoleAction role grRes uuid = .ok
        { CreateRole := none
          ManagedPolicies :=
            { RoleName := role.RoleName, PolicyArn := basicExecutionRoleArn } ::
              role.ManagedPolicies.map (AttachManagedPolicyCommand role.RoleName)
          InlinePolicies := PutRolePolicyCommand role uuid }) := by
  refine ⟨?_, ?_, ?_⟩
  · intro hg hn
    subst hg
    simp [PrepareRoleAction, hn]
  · intro hg hn
    subst hg
    simp [PrepareRoleAction, hn]
  · intro hg
    subst hg
    simp [PrepareRoleAction]

/-- C7 witness: the three branches of the theorem at a concrete role — a
not-found lookup stages the create sub-action, a permission-denied lookup
fails with that error, and a successful lookup stages no create; the
baseline attachment leads the attachment list in both successful cases. -/
theorem c7_prepare_role_action_witness :
    PrepareRoleAction exRoleX (.error .noSuchEntity) uuidX = .ok
        { CreateRole := some (CreateRoleCommand exRoleX.RoleName
            exRoleX.AssumeRolePolicyDocument)
          ManagedPolicies :=
            { RoleName := exRoleX.RoleName, PolicyArn := basicExecutionRoleArn } ::
              exRoleX.ManagedPolicies.map (AttachManagedPolicyCommand exRoleX.RoleName)
          InlinePolicies := PutRolePolicyCommand exRoleX uuidX } ∧
      PrepareRoleAction exRoleX (.error (.other "denied".toList)) uuidX =
        .error (.other "denied".toList) ∧
      PrepareRoleAction exRoleX (.ok ()) uuidX = .ok
        { CreateRole := none
          ManagedPolicies :=
            { RoleName := exRoleX.RoleName, PolicyArn := basicExecutionRoleArn } ::
              exRoleX.ManagedPolicies.map (AttachManagedPolicyCommand exRoleX.RoleName)
          InlinePolicies := PutRolePolicyCommand exRoleX uuidX } := by
  refine ⟨(c7_prepare_role_action exRoleX (.error .noSuchEntity) uuidX
      .noSuchEntity).1 rfl (by decide),
    (c7_prepare_role_action exRoleX (.error (.other "denied".toList)) uuidX
      (.other "denied".toList)).2.1 rfl (by decide),
    (c7_prepare_role_action exRoleX (.ok ()) uuidX (.other [])).2.2 rfl⟩

/-- C9: for every subset of the three condition clause types present in
the condition test document, ParseResourcePolicy extracts each present
condition into the corresponding field with a value exactly equal to the
quoted string of the source document, independently of which other
conditions are present, and the absence of any or all conditions is not
an error. -/
theorem c9_condition_extraction (b1 b2 b3 : Bool) :
    ParseResourcePolicy (condDoc b1 b2 b3) = .ok
      { Principal := "\x7bService:s3.amazonaws.com\x7d".toList
        SourceAccountCondition := if b2 then some "123456789012".toList else none
        SourceArnCondition :=
          if b1 then some "arn:aws:s3:::DOC-EXAMPLE-BUCKET".toList else none
        PrincipalOrgIdCondition :=
          if b3 then some "o-a1b2c3d4e5f".toList else none } := by
  cases b1 <;> cases b2 <;> cases b3 <;> decide

/-- C9 witness: the theorem at the all-conditions document. -/
theorem c9_condition_extraction_witness :
    ParseResourcePolicy (condDoc true true true) = .ok
      { Principal := "\x7bService:s3.amazonaws.com\x7d".toList
        SourceAccountCondition := some "123456789012".toList
        SourceArnCondition := some "arn:aws:s3:::DOC-EXAMPLE-BUCKET".toList
        PrincipalOrgIdCondition := some "o-a1b2c3d4e5f".toList } :=
  c9_condition_extraction true true true

/-- C10: applying the deploy option WithInlinePolicy with the empty
string, or WithResourcePolicy with the empty string, returns no error and
returns the Lambda unchanged — even though ParseInlinePolicy itself
rejects the empty string — so an unset policy flag never fails or alters a
deployment. -/
theorem c10_empty_policy_options (l : Lambda) :
    WithInlinePolicy [] l = .ok l ∧ WithResourcePolicy [] l = .ok l ∧
      exceptIsErr (ParseInlinePolicy []) = true := by
  refine ⟨rfl, rfl, by decide⟩

/-- C10 witness: the theorem at a concrete Lambda. -/
theorem c10_empty_policy_options_witness :
    WithInlinePolicy [] lambdaExisting = .ok lambdaExisting ∧
      WithResourcePolicy [] lambdaExisting = .ok lambdaExisting ∧
      exceptIsErr (ParseInlinePolicy []) = true :=
  c10_empty_policy_options lambdaExisting

/-- Characters of any piece produced by splitOnP come from the source list
and do not satisfy the splitting predicate. -/
theorem splitOnP_piece_chars {α : Type} (p : α → Bool) :
    ∀ (xs : List α) (l : List α), l ∈ xs.splitOnP p → ∀ c ∈ l, c ∈ xs ∧ p c = false := by
  intro xs
  induction xs with
  | nil =>
    intro l hl c hc
    rw [List.splitOnP_nil] at hl
    rw [List.mem_singleton.mp hl] at hc
    exact absurd hc (List.not_mem_nil c)
  | cons x xs ih =>
    intro l hl c hc
    rw [List.splitOnP_cons] at hl
    by_cases hp : p x = true
    · rw [if_pos hp] at hl
      rcases List.mem_cons.mp hl with h | h
      · rw [h] at hc
        exact absurd hc (List.not_mem_nil c)
      · obtain ⟨h1, h2⟩ := ih l h c hc
        exact ⟨List.mem_cons_of_mem x h1, h2⟩
    · rw [if_neg hp] at hl
      cases hsp : xs.splitOnP p with
      | nil => exact absurd hsp (List.splitOnP_ne_nil p xs)
      | cons hd tl =>
        rw [hsp] at hl
        simp only [List.modifyHead] at hl
        rcases List.mem_cons.mp hl with h | h
        · rw [h] at hc
          rcases List.mem_cons.mp hc with h' | h'
          · rw [h']
            exact ⟨List.mem_cons_self x xs, by simpa using hp⟩
          · have hhd : hd ∈ xs.splitOnP p := by
              rw [hsp]; exact List.mem_cons_self hd tl
            obtain ⟨h1, h2⟩ := ih hd hhd c h'
            exact ⟨List.mem_cons_of_mem x h1, h2⟩
        · have hl' : l ∈ xs.splitOnP p := by
            rw [hsp]; exact List.mem_cons_of_mem hd h
          obtain ⟨h1, h2⟩ := ih l hl' c hc
          exact ⟨List.mem_cons_of_mem x h1, h2⟩

/-- Pieces of the comma split contain no commas and only characters of the
source. -/
theorem splitOn_comma_piece {xs l : List Char} (hl : l ∈ xs.splitOn ',') :
    ∀ c ∈ l, c ∈ xs ∧ c ≠ ',' := by
  intro c hc
  have h := splitOnP_piece_chars (· == ',') xs l (by simpa [List.splitOn] using hl) c hc
  exact ⟨h.1, by simpa using h.2⟩

/-- Characters surviving the two cleaning filters of ParseManagedPolicy
are neither whitespace nor quotes. -/
theorem clean_chars {s : List Char} {c : Char}
    (hc : c ∈ removeQuotes (removeWhitespace s)) :
    goIsSpace c = false ∧ c ≠ '"' ∧ c ≠ '\x27' := by
  obtain ⟨h1, h2⟩ := List.mem_filter.mp hc
  obtain ⟨_, h4⟩ := List.mem_filter.mp h1
  have h2' : ¬(c = '"' ∨ c = '\x27') := by simpa using h2
  exact ⟨by simpa using h4, fun h => h2' (Or.inl h), fun h => h2' (Or.inr h)⟩

/-- On strings with no whitespace and no quotes the two cleaning filters
are the identity. -/
theorem clean_eq_self {s : List Char}
    (h : ∀ c ∈ s, goIsSpace c = false ∧ c ≠ '"' ∧ c ≠ '\x27') :
    removeQuotes (removeWhitespace s) = s := by
  have h1 : removeWhitespace s = s :=
    List.filter_eq_self.mpr (fun c hc => by simp [(h c hc).1])
  rw [removeQuotes, h1]
  exact List.filter_eq_self.mpr
    (fun c hc => by simp [(h c hc).2.1, (h c hc).2.2])

/-- Any list is a prefix (in the Boolean sense of isPrefixOf) of itself
followed by anything. -/
theorem isPrefixOf_append_self (l t : List Char) : l.isPrefixOf (l ++ t) = true := by
  simp [List.prefix_append]

/-- Every expanded entry starts with the fully-qualified prefix. -/
theorem expandOne_arn (p : List Char) :
    arnPre.isPrefixOf (expandOne p) = true := by
  by_cases h : arnPre <+: p
  · simp [expandOne, h]
  · have hsplit : arnPolicyNamespace =
        arnPre ++ "aws:iam::aws:policy/".toList := by decide
    simp only [expandOne, h, if_neg, List.isPrefixOf_iff_prefix, ite_false]
    rw [hsplit, List.append_assoc]
    exact List.prefix_append _ _

/-- Expansion is the identity on entries already carrying the prefix. -/
theorem expandOne_eq_self {p : List Char}
    (h : arnPre.isPrefixOf p = true) : expandOne p = p := by
  have h' : arnPre <+: p := by simpa using h
  simp [expandOne, h']

/-- A list with the non-empty prefix "arn:" is non-empty. -/
theorem prefix_ne_nil {p : List Char}
    (h : arnPre.isPrefixOf p = true) : p ≠ [] := by
  intro hp
  rw [hp] at h
  exact absurd h (by decide)

/-- Mapping a function that fixes every member of a list is the
identity. -/
theorem map_id_of_mem {α : Type} (f : α → α) :
    ∀ (l : List α), (∀ x ∈ l, f x = x) → l.map f = l := by
  intro l
  induction l with
  | nil => intro _; rfl
  | cons a t ih =>
    intro h
    simp only [List.map_cons, h a (List.mem_cons_self a t),
      ih (fun x hx => h x (List.mem_cons_of_mem a hx))]

/-- goJoinComma of the empty list is empty. -/
theorem goJoinComma_nil : goJoinComma [] = [] := rfl

/-- goJoinComma of a single entry is that entry. -/
theorem goJoinComma_single (a : List Char) : goJoinComma [a] = a := by
  simp [goJoinComma, List.intercalate]

/-- goJoinComma puts one comma between adjacent entries. -/
theorem goJoinComma_cons₂ (a b : List Char) (t : List (List Char)) :
    goJoinComma (a :: b :: t) = a ++ ',' :: goJoinComma (b :: t) := by
  simp [goJoinComma, List.intercalate]

/-- Characters of a comma join are commas or characters of the joined
entries. -/
theorem goJoinComma_mem {ls : List (List Char)} {c : Char} :
    c ∈ goJoinComma ls → c = ',' ∨ ∃ l, l ∈ ls ∧ c ∈ l := by
  induction ls with
  | nil =>
    intro h
    rw [goJoinComma_nil] at h
    exact absurd h (List.not_mem_nil c)
  | cons a t ih =>
    cases t with
    | nil =>
      intro h
      rw [goJoinComma_single] at h
      exact Or.inr ⟨a, List.mem_cons_self a [], h⟩
    | cons b t2 =>
      intro h
      rw [goJoinComma_cons₂] at h
      rcases List.mem_append.mp h with h | h
      · exact Or.inr ⟨a, List.mem_cons_self a (b :: t2), h⟩
      · rcases List.mem_cons.mp h with h | h
        · exact Or.inl h
        · rcases ih h with h | ⟨l, hl, hc⟩
          · exact Or.inl h
          · exact Or.inr ⟨l, List.mem_cons_of_mem a hl, hc⟩

/-- A comma join headed by a non-empty entry is non-empty. -/
theorem goJoinComma_ne_nil {a : List Char} {t : List (List Char)}
    (ha : a ≠ []) : goJoinComma (a :: t) ≠ [] := by
  cases t with
  | nil => rw [goJoinComma_single]; exact ha
  | cons b t2 =>
    rw [goJoinComma_cons₂]
    intro h
    exact ha (List.append_eq_nil.mp h).1

/-- Every entry of a ParseManagedPolicy result starts with the
fully-qualified prefix and consists of clean, comma-free characters. -/
theorem parseManagedPolicy_mem {s o : List Char}
    (h : o ∈ ParseManagedPolicy s) :
    arnPre.isPrefixOf o = true ∧ ∀ c ∈ o, isMPClean c = true := by
  by_cases hs : s = []
  · rw [hs] at h
    rw [show ParseManagedPolicy [] = [] from rfl] at h
    exact absurd h (List.not_mem_nil o)
  · rw [ParseManagedPolicy, if_neg hs] at h
    obtain ⟨piece, hpiece, hexp⟩ := List.mem_map.mp h
    rw [← hexp]
    refine ⟨expandOne_arn piece, ?_⟩
    have hpc : ∀ c ∈ piece, isMPClean c = true := by
      intro c hc
      obtain ⟨hmem, hnc⟩ := splitOn_comma_piece hpiece c hc
      obtain ⟨h1, h2, h3⟩ := clean_chars hmem
      simp [isMPClean, h1, h2, h3, hnc]
    intro c hc
    by_cases hp : arnPre <+: piece
    · rw [expandOne_eq_self (by simpa using hp)] at hc
      exact hpc c hc
    · simp only [expandOne, hp, List.isPrefixOf_iff_prefix, ite_false, if_neg] at hc
      rcases List.mem_append.mp hc with hc | hc
      · exact (by decide : ∀ c ∈ arnPolicyNamespace, isMPClean c = true) c hc
      · exact hpc c hc

/-- Re-expanding the comma join of any expansion result leaves it
unchanged. -/
theorem parseManagedPolicy_idem (s : List Char) :
    ParseManagedPolicy (goJoinComma (ParseManagedPolicy s)) = ParseManagedPolicy s := by
  by_cases hs : s = []
  · rw [hs]; rfl
  · have hsp_ne : (removeQuotes (removeWhitespace s)).splitOn ',' ≠ [] := by
      simpa [List.splitOn] using
        List.splitOnP_ne_nil (· == ',') (removeQuotes (removeWhitespace s))
    have hne : ParseManagedPolicy s ≠ [] := by
      rw [ParseManagedPolicy, if_neg hs]
      simpa [List.map_eq_nil_iff] using hsp_ne
    obtain ⟨o1, rest, hcons⟩ : ∃ o1 rest, ParseManagedPolicy s = o1 :: rest := by
      cases hpm : ParseManagedPolicy s with
      | nil => exact absurd hpm hne
      | cons a t => exact ⟨a, t, rfl⟩
    have ho1 : o1 ∈ ParseManagedPolicy s := by
      rw [hcons]; exact List.mem_cons_self o1 rest
    have ho1_ne : o1 ≠ [] := prefix_ne_nil (parseManagedPolicy_mem ho1).1
    have hjoin_ne : goJoinComma (ParseManagedPolicy s) ≠ [] := by
      rw [hcons]; exact goJoinComma_ne_nil ho1_ne
    have hclean : removeQuotes (removeWhitespace (goJoinComma (ParseManagedPolicy s))) =
        goJoinComma (ParseManagedPolicy s) := by
      apply clean_eq_self
      intro c hc
      rcases goJoinComma_mem hc with hcm | ⟨l, hl, hcl⟩
      · rw [hcm]
        exact ⟨by decide, by decide, by decide⟩
      · have hm := (parseManagedPolicy_mem hl).2 c hcl
        simp only [isMPClean, Bool.and_eq_true, Bool.not_eq_true'] at hm
        exact ⟨hm.1.1.1, by simpa using hm.1.1.2, by simpa using hm.1.2⟩
    have hsplit : (goJoinComma (ParseManagedPolicy s)).splitOn ',' =
        ParseManagedPolicy s := by
      have hx : ∀ l ∈ ParseManagedPolicy s, ',' ∉ l := by
        intro l hl hmem
        have hm := (parseManagedPolicy_mem hl).2 ',' hmem
        simp [isMPClean] at hm
      simpa [goJoinComma] using
        List.splitOn_intercalate (ParseManagedPolicy s) ',' hx hne
    have hmap : (ParseManagedPolicy s).map expandOne = ParseManagedPolicy s :=
      map_id_of_mem expandOne _
        (fun o ho => expandOne_eq_self (parseManagedPolicy_mem ho).1)
    calc ParseManagedPolicy (goJoinComma (ParseManagedPolicy s))
        = ((removeQuotes (removeWhitespace
            (goJoinComma (ParseManagedPolicy s)))).splitOn ',').map expandOne := by
          rw [ParseManagedPolicy, if_neg hjoin_ne]
      _ = ParseManagedPolicy s := by rw [hclean, hsplit, hmap]

/-- C8: managed-policy expansion is idempotent: an entry already carrying
the fully-qualified "arn:" prefix (and free of separators, quotes and
whitespace, as any single entry is) passes through unchanged;
re-expanding the comma join of any expanded output leaves it unchanged;
scenario D's mixed input with embedded spaces expands to exactly the two
fully-qualified identifiers; and the empty string yields the empty list
rather than an error. -/
theorem c8_managed_policy_expansion (p s : List Char) :
    (arnPre.isPrefixOf p = true → (∀ c ∈ p, isMPClean c = true) →
      ParseManagedPolicy p = [p]) ∧
    ParseManagedPolicy (goJoinComma (ParseManagedPolicy s)) = ParseManagedPolicy s ∧
    ParseManagedPolicy scenarioDInput =
      ["arn:aws:iam::aws:policy/S3FullAccess".toList,
       "arn:aws:iam::aws:policy/AmazonDynamoDBFullAccess".toList] ∧
    ParseManagedPolicy [] = [] := by
  refine ⟨?_, parseManagedPolicy_idem s, by decide, rfl⟩
  intro hpre hcl
  have hne := prefix_ne_nil hpre
  have hc : removeQuotes (removeWhitespace p) = p := by
    apply clean_eq_self
    intro c hc
    have hm := hcl c hc
    simp only [isMPClean, Bool.and_eq_true, Bool.not_eq_true'] at hm
    exact ⟨hm.1.1.1, by simpa using hm.1.1.2, by simpa using hm.1.2⟩
  have hsplit : p.splitOn ',' = [p] := by
    have hsingle := List.splitOnP_eq_single (· == ',') p (fun x hx => by
      have hm := hcl x hx
      simp only [isMPClean, Bool.and_eq_true, Bool.not_eq_true'] at hm
      simpa using hm.2)
    simpa [List.splitOn] using hsingle
  rw [ParseManagedPolicy, if_neg hne, hc, hsplit]
  simp [expandOne_eq_self hpre]

/-- C8 witness: a fully-qualified entry passes through unchanged, and the
idempotence instance on the scenario D input. -/
theorem c8_managed_policy_expansion_witness :
    ParseManagedPolicy "arn:aws:iam::aws:policy/IAMFullAccess".toList =
        ["arn:aws:iam::aws:policy/IAMFullAccess".toList] ∧
      ParseManagedPolicy (goJoinComma (ParseManagedPolicy scenarioDInput)) =
        ParseManagedPolicy scenarioDInput := by
  constructor
  · exact (c8_managed_policy_expansion
      "arn:aws:iam::aws:policy/IAMFullAccess".toList []).1 (by decide) (by decide)
  · exact (c8_managed_policy_expansion [] scenarioDInput).2.1

end Glambda
